import Mathlib

/-!
Verification development for the streaming response relay of the
`ai_chatbot_backend` repository.

The repository is a set of Express + Socket.IO gateways forwarding a user
message to an Ollama-style inference API and streaming the incrementally
generated answer back over a WebSocket.  The core logic is the streaming
relay `generateResponse`, which appears in two materially different
variants:

* `src/server.js`, `class RemoteOllamaService` (NDJSON upstream,
  carry-over buffer, resolves with a fallback text on failure);
* `src/unnamed/part_000`, `class MedicalOllamaService` (SSE upstream,
  no carry-over buffer, rethrows on failure).

JavaScript strings are modelled as `List Char`.  External library
behaviour (`fetch`, `JSON.parse`, timers, `Math.random`) is modelled by
explicit parameters: the possible outcomes of the network calls are an
inductive `Behavior`, `JSON.parse` plus field extraction is an abstract
function parameter, and the random fallback choice is an index parameter.
-/

/-- The record emitted with each `streaming_response` event:
`socket.emit('streaming_response', { text, partial, complete, isFallback })`.
Fields that are absent in a given `emit` are JavaScript `undefined`,
i.e. falsy, and are modelled as `false`. (`partial` is a reserved word in
Lean, hence the field name `partFlag`.) -/
structure Notification where
  text : List Char
  partFlag : Bool
  completeFlag : Bool
  isFallback : Bool
deriving Repr, DecidableEq

/-- The result of `JSON.parse(line)` as consumed by the NDJSON loop:
only the `response` and `done` fields are read.  `response = none` models
an absent (or non-string) `response` field; `done` models the truthiness
of `data.done`. -/
structure LineData where
  response : Option (List Char)
  done : Bool
deriving Repr, DecidableEq

/-- `JSON.parse` composed with field access, as an abstract parameter:
`none` models a `JSON.parse` exception on that line (caught per-line by
the loop), `some d` a successfully parsed object. -/
abbrev Parse := List Char → Option LineData

/-- `buffer.split('\n')`: split a character sequence at every newline
character.  Like the JavaScript `split`, the result is always non-empty
and the separators are dropped. -/
def splitNl : List Char → List (List Char)
  | [] => [[]]
  | c :: cs =>
    match splitNl cs with
    | [] => [[c]]
    | s :: ss => if c = '\n' then [] :: s :: ss else (c :: s) :: ss

/-- The whitespace class of JavaScript `String.prototype.trim` (the
characters relevant to this code base). -/
def jsWhitespace (c : Char) : Bool :=
  c = ' ' || c = '\t' || c = '\n' || c = '\r' ||
  c = '\x0b' || c = '\x0c' || c = ' '

/-- `line.trim()`. -/
def jsTrim (l : List Char) : List Char :=
  ((l.dropWhile jsWhitespace).reverse.dropWhile jsWhitespace).reverse

namespace RemoteOllamaService

/-! ### `src/server.js`, `RemoteOllamaService.generateResponse`

The decoding loop (lines 228-273) keeps `fullResponse` and `buffer`
strings; each chunk is appended to the buffer, the buffer is split on
newlines, the final element is retained as the new buffer, and every
preceding complete line is JSON-parsed: a `response` fragment is appended
to `fullResponse` and re-emitted cumulatively; a `done` flag emits the
final `complete` notification, resolves and returns. -/

/-- The part of the loop state that survives aside from the carry-over
buffer: the accumulated answer, the notifications emitted so far (in
emission order) and the resolution value once `resolve` has run. -/
structure PState where
  full : List Char
  notifs : List Notification
  resolved : Option (List Char)
deriving Repr, DecidableEq

/-- `if (socket && socket.connected) socket.emit(...)`: the notification
is delivered only when the client socket is still connected. -/
def emitIf (conn : Bool) (n : Notification) : List Notification :=
  if conn then [n] else []

/-- Processing of one complete line of the NDJSON body
(`for (const line of lines)` at src/server.js:237-270).  The
`resolved.isSome` guard models the `return` that follows `resolve`:
once the promise is resolved the loop has been exited and later lines
are never processed. -/
def lineStep (parse : Parse) (conn : Bool) (st : PState) (line : List Char) :
    PState :=
  if st.resolved.isSome then st
  else if jsTrim line = [] then st
  else
    match parse line with
    | none => st
    | some d =>
      let st1 :=
        match d.response with
        | some r =>
          if r ≠ [] then
            { st with
              full := st.full ++ r
              notifs := st.notifs ++
                emitIf conn ⟨st.full ++ r, !d.done, false, false⟩ }
          else st
        | none => st
      if d.done then
        { st1 with
          notifs := st1.notifs ++ emitIf conn ⟨st1.full, false, true, false⟩
          resolved := some st1.full }
      else st1

/-- The inner `for` loop over the complete lines of one chunk. -/
def procLines (parse : Parse) (conn : Bool) (st : PState)
    (lines : List (List Char)) : PState :=
  lines.foldl (lineStep parse conn) st

/-- Full decoding state: `PState` plus the carry-over `buffer`. -/
structure DState extends PState where
  buf : List Char
deriving Repr, DecidableEq

/-- One iteration of `while (true)` for a chunk delivered by
`reader.read()` (src/server.js:228-271): append the chunk to the buffer,
split on newlines, keep the final (possibly partial) element as the new
buffer, and process the complete lines.  The guard models the `return`
after `resolve`: once resolved, no further chunk is read. -/
def chunkStep (parse : Parse) (conn : Bool) (st : DState) (chunk : List Char) :
    DState :=
  if st.toPState.resolved.isSome then st
  else
    let lines := splitNl (st.buf ++ chunk)
    { toPState := procLines parse conn st.toPState lines.dropLast
      buf := lines.getLastD [] }

/-- The decoding loop run over the whole sequence of body chunks,
starting from `fullResponse = ''`, `buffer = ''`. -/
def decodeRun (parse : Parse) (conn : Bool) (chunks : List (List Char)) :
    DState :=
  chunks.foldl (chunkStep parse conn) ⟨⟨[], [], none⟩, []⟩

/-- The four canned fallback strings of
`RemoteOllamaService.getFallbackResponse` (src/server.js:312-329),
transcribed character for character from the source file. -/
def fallbacks : List (List Char) :=
  ["\u00d8\u00b9\u00d8\u00b0\u00d8\u00b1\u00d9\u2039\u00d8\u00a7\u00d8\u0152 \u00d8\u00a7\u00d9\u201e\u00d8\u00ae\u00d8\u00af\u00d9\u2026\u00d8\u00a9 \u00d8\u00a7\u00d9\u201e\u00d8\u00b7\u00d8\u00a8\u00d9\u0160\u00d8\u00a9 \u00d8\u00ba\u00d9\u0160\u00d8\u00b1 \u00d9\u2026\u00d8\u00aa\u00d8\u00a7\u00d8\u00ad\u00d8\u00a9 \u00d8\u00ad\u00d8\u00a7\u00d9\u201e\u00d9\u0160\u00d9\u2039\u00d8\u00a7. \u00d9\u0160\u00d8\u00b1\u00d8\u00ac\u00d9\u2030 \u00d8\u00a7\u00d9\u201e\u00d9\u2026\u00d8\u00ad\u00d8\u00a7\u00d9\u02c6\u00d9\u201e\u00d8\u00a9 \u00d9\u201e\u00d8\u00a7\u00d8\u00ad\u00d9\u201a\u00d9\u2039\u00d8\u00a7 \u00d8\u00a3\u00d9\u02c6 \u00d8\u00a7\u00d9\u201e\u00d8\u00a7\u00d8\u00aa\u00d8\u00b5\u00d8\u00a7\u00d9\u201e \u00d8\u00a8\u00d8\u00b7\u00d8\u00a8\u00d9\u0160\u00d8\u00a8\u00d9\u0192 \u00d9\u2026\u00d8\u00a8\u00d8\u00a7\u00d8\u00b4\u00d8\u00b1\u00d8\u00a9. \u00d9\u201e\u00d9\u201e\u00d8\u00b7\u00d9\u02c6\u00d8\u00a7\u00d8\u00b1\u00d8\u00a6 \u00d8\u00a7\u00d8\u00aa\u00d8\u00b5\u00d9\u201e \u00d8\u00b9\u00d9\u201e\u00d9\u2030 190.".data,
   "\u00d9\u2020\u00d8\u00b8\u00d8\u00a7\u00d9\u2026 \u00d8\u00a7\u00d9\u201e\u00d8\u00a7\u00d8\u00b3\u00d8\u00aa\u00d8\u00b4\u00d8\u00a7\u00d8\u00b1\u00d8\u00a7\u00d8\u00aa \u00d8\u00a7\u00d9\u201e\u00d8\u00b7\u00d8\u00a8\u00d9\u0160\u00d8\u00a9 \u00d8\u00ba\u00d9\u0160\u00d8\u00b1 \u00d9\u2026\u00d8\u00aa\u00d9\u02c6\u00d9\u00d8\u00b1 \u00d8\u00a7\u00d9\u201e\u00d8\u00a2\u00d9\u2020. \u00d9\u2020\u00d9\u02c6\u00d8\u00b5\u00d9\u0160 \u00d8\u00a8\u00d8\u00a7\u00d9\u201e\u00d8\u00a7\u00d8\u00aa\u00d8\u00b5\u00d8\u00a7\u00d9\u201e \u00d8\u00a8\u00d9\u2026\u00d8\u00b3\u00d8\u00aa\u00d8\u00b4\u00d9\u00d9\u2030 \u00d8\u00b4\u00d8\u00a7\u00d8\u00b1\u00d9\u201e \u00d9\u2020\u00d9\u0160\u00d9\u0192\u00d9\u02c6\u00d9\u201e \u00d8\u00b9\u00d9\u201e\u00d9\u2030 71 286 100 \u00d8\u00a3\u00d9\u02c6 \u00d9\u2026\u00d8\u00b3\u00d8\u00aa\u00d8\u00b4\u00d9\u00d9\u2030 \u00d8\u00a7\u00d9\u201e\u00d8\u00b1\u00d8\u00a7\u00d8\u00a8\u00d8\u00b7\u00d8\u00a9 \u00d8\u00b9\u00d9\u201e\u00d9\u2030 71 785 000 \u00d9\u201e\u00d8\u00aa\u00d9\u201e\u00d9\u201a\u00d9\u0160 \u00d8\u00a7\u00d9\u201e\u00d9\u2026\u00d8\u00b3\u00d8\u00a7\u00d8\u00b9\u00d8\u00af\u00d8\u00a9 \u00d8\u00a7\u00d9\u201e\u00d9\u00d9\u02c6\u00d8\u00b1\u00d9\u0160\u00d8\u00a9.".data,
   "\u00d9\u2020\u00d8\u00b9\u00d8\u00aa\u00d8\u00b0\u00d8\u00b1 \u00d8\u00b9\u00d9\u2020 \u00d8\u00b9\u00d8\u00af\u00d9\u2026 \u00d8\u00aa\u00d9\u2026\u00d9\u0192\u00d9\u2020\u00d9\u2020\u00d8\u00a7 \u00d9\u2026\u00d9\u2020 \u00d8\u00aa\u00d9\u201a\u00d8\u00af\u00d9\u0160\u00d9\u2026 \u00d8\u00a7\u00d8\u00b3\u00d8\u00aa\u00d8\u00b4\u00d8\u00a7\u00d8\u00b1\u00d8\u00a9 \u00d8\u00b7\u00d8\u00a8\u00d9\u0160\u00d8\u00a9 \u00d9\u00d9\u0160 \u00d8\u00a7\u00d9\u201e\u00d9\u02c6\u00d9\u201a\u00d8\u00aa \u00d8\u00a7\u00d9\u201e\u00d8\u00ad\u00d8\u00a7\u00d9\u201e\u00d9\u0160. \u00d9\u201e\u00d9\u201e\u00d8\u00b1\u00d8\u00b9\u00d8\u00a7\u00d9\u0160\u00d8\u00a9 \u00d8\u00a7\u00d9\u201e\u00d8\u00b9\u00d8\u00a7\u00d8\u00ac\u00d9\u201e\u00d8\u00a9\u00d8\u0152 \u00d9\u0160\u00d8\u00b1\u00d8\u00ac\u00d9\u2030 \u00d8\u00a7\u00d9\u201e\u00d8\u00aa\u00d9\u02c6\u00d8\u00ac\u00d9\u2021 \u00d8\u00a5\u00d9\u201e\u00d9\u2030 \u00d8\u00a3\u00d9\u201a\u00d8\u00b1\u00d8\u00a8 \u00d9\u2026\u00d8\u00b1\u00d9\u0192\u00d8\u00b2 \u00d8\u00b5\u00d8\u00ad\u00d9\u0160 \u00d8\u00a3\u00d9\u02c6 \u00d8\u00a7\u00d9\u201e\u00d8\u00a7\u00d8\u00aa\u00d8\u00b5\u00d8\u00a7\u00d9\u201e \u00d8\u00a8\u00d8\u00b1\u00d9\u201a\u00d9\u2026 \u00d8\u00a7\u00d9\u201e\u00d8\u00b7\u00d9\u02c6\u00d8\u00a7\u00d8\u00b1\u00d8\u00a6 190.".data,
   "\u00d8\u00a8\u00d9\u2020\u00d8\u00a7\u00d8\u00a1\u00d9\u2039 \u00d8\u00b9\u00d9\u201e\u00d9\u2030 \u00d8\u00b7\u00d9\u201e\u00d8\u00a8\u00d9\u0192\u00d8\u0152 \u00d9\u2020\u00d9\u02c6\u00d8\u00b5\u00d9\u0160 \u00d8\u00a8\u00d8\u00a7\u00d8\u00b3\u00d8\u00aa\u00d8\u00b4\u00d8\u00a7\u00d8\u00b1\u00d8\u00a9 \u00d8\u00b7\u00d8\u00a8\u00d9\u0160\u00d8\u00a8 \u00d9\u2026\u00d8\u00aa\u00d8\u00ae\u00d8\u00b5\u00d8\u00b5. \u00d9\u0160\u00d9\u2026\u00d9\u0192\u00d9\u2020\u00d9\u0192 \u00d8\u00a7\u00d9\u201e\u00d8\u00aa\u00d9\u02c6\u00d8\u00a7\u00d8\u00b5\u00d9\u201e \u00d9\u2026\u00d8\u00b9:\n      - \u00d9\u2026\u00d8\u00b3\u00d8\u00aa\u00d8\u00b4\u00d9\u00d9\u2030 \u00d8\u00b4\u00d8\u00a7\u00d8\u00b1\u00d9\u201e \u00d9\u2020\u00d9\u0160\u00d9\u0192\u00d9\u02c6\u00d9\u201e: 71 286 100\n      - \u00d9\u2026\u00d8\u00b3\u00d8\u00aa\u00d8\u00b4\u00d9\u00d9\u2030 \u00d8\u00a7\u00d9\u201e\u00d8\u00b1\u00d8\u00a7\u00d8\u00a8\u00d8\u00b7\u00d8\u00a9: 71 785 000  \n      - \u00d9\u2026\u00d8\u00b3\u00d8\u00aa\u00d8\u00b4\u00d9\u00d9\u2030 \u00d8\u00a7\u00d9\u201e\u00d9\u2026\u00d9\u2020\u00d8\u00ac\u00d9\u0160 \u00d8\u00b3\u00d9\u201e\u00d9\u0160\u00d9\u2026: 71 430 000\n      - \u00d8\u00b1\u00d9\u201a\u00d9\u2026 \u00d8\u00a7\u00d9\u201e\u00d8\u00b7\u00d9\u02c6\u00d8\u00a7\u00d8\u00b1\u00d8\u00a6: 190".data]

/-- `getFallbackResponse` (src/server.js:312-329): returns
`fallbacks[Math.floor(Math.random() * fallbacks.length)]`.  The random
draw is external; it is modelled by the index argument `r`. -/
def getFallbackResponse (r : Nat) : List Char :=
  fallbacks.getD (r % 4) []

/-- The fallback `streaming_response` notification emitted in the
`catch` block (src/server.js:281-288):
`{ text: fallbackResponse, partial: false, complete: true, isFallback: true }`. -/
def fallbackNotif (fb : List Char) : Notification :=
  ⟨fb, false, true, true⟩

/-- The outbound requests `generateResponse` can perform:
`fetch(OLLAMA_BASE_URL + '/api/tags')` inside `testOllamaConnection`,
and `fetch(OLLAMA_BASE_URL + '/api/generate')`. -/
inductive NetCall
  | tags
  | generate
deriving Repr, DecidableEq

/-- How the upstream stream can end after a successful connection:
the reader reports `done` (`eof`), `reader.read()` throws (`err`), or
the upstream stalls forever without closing (`stall`). -/
inductive Terminal
  | eof
  | err
  | stall
deriving Repr, DecidableEq

/-- The externally determined outcome of the network interaction of one
`generateResponse` invocation:

* `testFail`: `testOllamaConnection()` returns `false` (its probe fetch
  threw, timed out after its 10 s timer, or returned a non-2xx status),
  so `generateResponse` throws before calling `/api/generate`;
* `genFail`: the probe succeeded but `fetch('/api/generate')` threw or
  returned `!response.ok`;
* `genStall`: the probe succeeded and `fetch('/api/generate')` never
  settles on its own; after 120 s the `setTimeout` fires
  `controller.abort()` and the fetch rejects with an abort error;
* `body chunks t`: headers arrived (`response.ok`), `clearTimeout` has
  run, and the body delivers `chunks` followed by terminal event `t`. -/
inductive Behavior
  | testFail
  | genFail
  | genStall
  | body (chunks : List (List Char)) (t : Terminal)
deriving Repr, DecidableEq

/-- The observable outcome of a settled `generateResponse` call: the
outbound requests performed, the `streaming_response` notifications
emitted in order, and the promise's resolution value. -/
structure Result where
  calls : List NetCall
  notifs : List Notification
  value : List Char
deriving Repr, DecidableEq

/-- `RemoteOllamaService.generateResponse` (src/server.js:180-293),
relative to an upstream behavior.  `parse` models `JSON.parse`, `conn`
models `socket && socket.connected`, `fb` is the fallback text chosen by
`getFallbackResponse`.  The result is `none` when the promise never
settles: this happens exactly when the body stalls after the
`clearTimeout(timeout)` at line 217, which removes the only timer before
the read loop starts, with no `done` line seen.  All failure paths land
in the `catch` block, which emits one fallback notification and resolves
with the fallback text. -/
def generateResponse (parse : Parse) (conn : Bool) (fb : List Char) :
    Behavior → Option Result
  | .testFail => some ⟨[.tags], emitIf conn (fallbackNotif fb), fb⟩
  | .genFail => some ⟨[.tags, .generate], emitIf conn (fallbackNotif fb), fb⟩
  | .genStall => some ⟨[.tags, .generate], emitIf conn (fallbackNotif fb), fb⟩
  | .body chunks t =>
    let st := decodeRun parse conn chunks
    match st.toPState.resolved with
    | some v => some ⟨[.tags, .generate], st.toPState.notifs, v⟩
    | none =>
      match t with
      | .eof => some ⟨[.tags, .generate], st.toPState.notifs, st.toPState.full⟩
      | .err => some ⟨[.tags, .generate],
          st.toPState.notifs ++ emitIf conn (fallbackNotif fb), fb⟩
      | .stall => none

/-- Notifications of a possibly unsettled call (`[]` when it hangs). -/
def notifsOf : Option Result → List Notification
  | none => []
  | some r => r.notifs

/-- Outbound calls of a possibly unsettled call (`[]` when it hangs). -/
def callsOf : Option Result → List NetCall
  | none => []
  | some r => r.calls

end RemoteOllamaService

namespace MedicalOllamaService

/-! ### `src/unnamed/part_000`, `MedicalOllamaService.generateResponse`

The SSE variant: no carry-over buffer (each chunk is split on newlines
and *every* non-blank piece, including a trailing partial line, is
processed immediately); `data: [DONE]` terminates with a `complete`
notification; on failure the `catch` block emits an `error` event and
rethrows, so the returned promise rejects. -/

/-- Events emitted on the socket by this variant: `streaming_response`
notifications and the `error` event of the `catch` block. -/
inductive P0Event
  | notif (n : Notification)
  | errorEvt
deriving Repr, DecidableEq

/-- Loop state: accumulated text, emitted events, and the returned value
once the function has returned from inside the loop. -/
structure P0State where
  full : List Char
  events : List P0Event
  returned : Option (List Char)
deriving Repr, DecidableEq

/-- `JSON.parse(line.slice(6))` composed with
`data.choices?.[0]?.delta?.content`: `none` is a parse exception,
`some none` a parsed object without a content string, `some (some c)` a
content fragment `c`. -/
abbrev SseParse := List Char → Option (Option (List Char))

/-- The sentinel line `'data: [DONE]'`. -/
def sseDone : List Char := "data: [DONE]".data

/-- The `'data: '` line prefix tested by `line.startsWith('data: ')`. -/
def ssePre : List Char := "data: ".data

/-- Processing of one line (src/unnamed/part_000:98-124).  The
`returned.isSome` guard models the `return fullResponse` on the sentinel
line: afterwards nothing further runs. -/
def lineStep (sp : SseParse) (st : P0State) (line : List Char) : P0State :=
  if st.returned.isSome then st
  else if line = sseDone then
    { st with
      events := st.events ++ [.notif ⟨st.full, false, true, false⟩]
      returned := some st.full }
  else if line.take 6 = ssePre then
    match sp (line.drop 6) with
    | none => st
    | some none => st
    | some (some c) =>
      if c ≠ [] then
        { st with
          full := st.full ++ c
          events := st.events ++ [.notif ⟨st.full ++ c, true, false, false⟩] }
      else st
  else st

/-- One chunk (src/unnamed/part_000:95-96):
`chunk.split('\n').filter(line => line.trim())` — no buffer is kept, the
trailing partial line of the chunk is processed like a complete line. -/
def chunkStep (sp : SseParse) (st : P0State) (chunk : List Char) : P0State :=
  if st.returned.isSome then st
  else ((splitNl chunk).filter (fun l => !(jsTrim l).isEmpty)).foldl
    (lineStep sp) st

/-- The upstream outcomes for this variant: `preFail` (fetch threw or
`!response.ok`), or a body of chunks optionally followed by a
`reader.read()` exception.  This variant sets no timeout at all. -/
inductive P0Behavior
  | preFail
  | body (chunks : List (List Char)) (readErr : Bool)
deriving Repr, DecidableEq

/-- How the promise returned by this variant settles: fulfilled with the
returned text, or rejected (`throw error` in the `catch` block at
src/unnamed/part_000:129-135). -/
inductive P0Outcome
  | ok (v : List Char)
  | rejected
deriving Repr, DecidableEq

/-- Settled outcome: events emitted, and how the promise settles. -/
structure P0Result where
  events : List P0Event
  result : P0Outcome
deriving Repr, DecidableEq

/-- `MedicalOllamaService.generateResponse` (src/unnamed/part_000:62-136).
On any upstream failure the `catch` block emits an `error` event and
rethrows: the promise rejects and no `complete` notification is sent. -/
def generateResponse (sp : SseParse) : P0Behavior → P0Result
  | .preFail => ⟨[.errorEvt], .rejected⟩
  | .body chunks readErr =>
    let st := chunks.foldl (chunkStep sp) ⟨[], [], none⟩
    match st.returned with
    | some v => ⟨st.events, .ok v⟩
    | none =>
      if readErr then ⟨st.events ++ [.errorEvt], .rejected⟩
      else ⟨st.events, .ok st.full⟩

/-- The `streaming_response` notifications among the emitted events. -/
def p0notifs (es : List P0Event) : List Notification :=
  es.filterMap fun e =>
    match e with
    | .notif n => some n
    | .errorEvt => none

end MedicalOllamaService

/-! ### The `send_message` handler and the chat history -/

/-- Outcome of the `send_message` handler (src/server.js:919-958) up to
the point where control would pass to the relay: whether an `error`
event was emitted, whether `medicalService.generateResponse` was
invoked, and with which (trimmed) message. -/
structure HandlerResult where
  errorEmitted : Bool
  relayInvoked : Bool
  relayArg : Option (List Char)
deriving Repr, DecidableEq

/-- The validation logic of the `send_message` handler
(src/server.js:919-951): rate-limit check, then
`!data.message || data.message.trim().length === 0` (an absent message is
`undefined` and an empty string is falsy, so both fall to the first
disjunct), then `data.message.length > 2000`; only a message passing all
three reaches `generateResponse(data.message.trim(), socket)`. -/
def handleSendMessage (rateOk : Bool) (msg : Option (List Char)) :
    HandlerResult :=
  if !rateOk then ⟨true, false, none⟩
  else
    match msg with
    | none => ⟨true, false, none⟩
    | some m =>
      if m = [] then ⟨true, false, none⟩
      else if (jsTrim m).length = 0 then ⟨true, false, none⟩
      else if m.length > 2000 then ⟨true, false, none⟩
      else ⟨false, true, some (jsTrim m)⟩

namespace HistoryA

/-- `MAX_HISTORY_SIZE` of the first variant (src/server.js:375). -/
def MAX_HISTORY_SIZE : Nat := 1000

/-- `addToHistory` (src/server.js:596-621): push the new entry, then
`if (chatHistory.length > MAX_HISTORY_SIZE)
  chatHistory.splice(0, chatHistory.length - MAX_HISTORY_SIZE)` —
drop enough of the oldest entries to retain exactly the newest
`MAX_HISTORY_SIZE`. -/
def addToHistory {α : Type} (hist : List α) (entry : α) : List α :=
  let h := hist ++ [entry]
  if MAX_HISTORY_SIZE < h.length then h.drop (h.length - MAX_HISTORY_SIZE)
  else h

end HistoryA

namespace HistoryB

/-- `MAX_HISTORY_SIZE` of the second variant (src/server.js:1482). -/
def MAX_HISTORY_SIZE : Nat := 500

/-- `addToHistory` (src/server.js:1484-1501): push the new entry, then
`if (chatHistory.length > MAX_HISTORY_SIZE) chatHistory.shift()` —
drop the single oldest entry. -/
def addToHistory {α : Type} (hist : List α) (entry : α) : List α :=
  let h := hist ++ [entry]
  if MAX_HISTORY_SIZE < h.length then h.drop 1
  else h

end HistoryB

/-! ### Proof-side definitions -/

/-- The re-framing of incoming data, fused into one recursion: `frame s`
is the pair of the complete lines contained in `s` and the trailing
(possibly empty) partial line.  It equals
`((splitNl s).dropLast, (splitNl s).getLastD [])` (theorem `frame_eq`)
and composes under append, which is what makes the buffered decoder
insensitive to chunk boundaries. -/
def frame : List Char → List (List Char) × List Char
  | [] => ([], [])
  | c :: cs =>
    let p := frame cs
    if c = '\n' then ([] :: p.1, p.2)
    else
      match p.1 with
      | [] => ([], c :: p.2)
      | l :: ls => ((c :: l) :: ls, p.2)

/-- Number of notifications in a list carrying `complete: true`. -/
def completes (l : List Notification) : Nat :=
  l.countP (fun n => n.completeFlag)

/-- `growsTo a b`: the text `b` extends the text `a` — the relation
between successive cumulative snapshots. -/
def growsTo (a b : List Char) : Prop :=
  ∃ t, b = a ++ t

/-- Invariant of the server.js decoding loop about `complete`
notifications: every notification before the last one is partial, and
there is exactly one `complete` notification iff the loop has resolved
via a `done` line with the socket connected. -/
def NInv (conn : Bool) (st : RemoteOllamaService.PState) : Prop :=
  (∀ n ∈ st.notifs.dropLast, n.completeFlag = false) ∧
  completes st.notifs = (if st.resolved.isSome && conn then 1 else 0)

/-- Invariant of the server.js decoding loop about cumulative text:
notification texts grow along the list, and every emitted text is a
stage of the accumulated answer. -/
def MInv (st : RemoteOllamaService.PState) : Prop :=
  st.notifs.Pairwise (fun a b => growsTo a.text b.text) ∧
  ∀ n ∈ st.notifs, growsTo n.text st.full

/-- The analogous `complete`-notification invariant for the part_000
loop (which emits unconditionally, having no `connected` check). -/
def p0NInv (st : MedicalOllamaService.P0State) : Prop :=
  (∀ n ∈ (MedicalOllamaService.p0notifs st.events).dropLast,
    n.completeFlag = false) ∧
  completes (MedicalOllamaService.p0notifs st.events) =
    (if st.returned.isSome then 1 else 0)

/-! ### Concrete inputs used by witnesses and counterexamples -/

/-- The NDJSON line `{"response":"Hello"}` of spec Scenario A. -/
def lineHello : List Char := "\x7b\"response\":\"Hello\"\x7d".data

/-- The NDJSON line `{"response":" world","done":false}` of Scenario A. -/
def lineWorld : List Char := "\x7b\"response\":\" world\",\"done\":false\x7d".data

/-- The NDJSON line `{"done":true}` of Scenario A. -/
def lineDone : List Char := "\x7b\"done\":true\x7d".data

/-- A concrete `JSON.parse` model agreeing with JSON semantics on the
three Scenario A lines (and failing on everything else, as `JSON.parse`
does on non-JSON noise). -/
def jparse3 : Parse := fun l =>
  if l = lineHello then some ⟨some "Hello".data, false⟩
  else if l = lineWorld then some ⟨some " world".data, false⟩
  else if l = lineDone then some ⟨none, true⟩
  else none

/-- The Scenario A body as a single chunk:
`{"response":"Hello"}\n{"response":" world","done":false}\n{"done":true}\n`. -/
def chunkA : List Char :=
  lineHello ++ '\n' :: (lineWorld ++ '\n' :: (lineDone ++ ['\n']))

/-- A 300-character token, longer than every configured fallback text. -/
def aLong : List Char := List.replicate 300 'a'

/-- The NDJSON line `{"response":"aaa…a"}` carrying `aLong`. -/
def lineLong : List Char := "\x7b\"response\":\"".data ++ aLong ++ "\"\x7d".data

/-- A concrete `JSON.parse` model agreeing with JSON semantics on
`lineLong`. -/
def jparseLong : Parse := fun l =>
  if l = lineLong then some ⟨some aLong, false⟩ else none

/-- The SSE line `data: {"choices":[{"delta":{"content":"AB"}}]}`. -/
def sseLineAB : List Char :=
  "data: \x7b\"choices\":[\x7b\"delta\":\x7b\"content\":\"AB\"\x7d\x7d]\x7d".data

/-- A concrete model of `JSON.parse` plus `choices[0].delta.content`
agreeing with JSON semantics on the payload of `sseLineAB` (and raising
on everything else, in particular on its truncated prefixes). -/
def spAB : MedicalOllamaService.SseParse := fun l =>
  if l = sseLineAB.drop 6 then some (some "AB".data) else none

/-- A parse model that fails on every line (irrelevant to the error
path it is used with). -/
def spNone : MedicalOllamaService.SseParse := fun _ => none

/-! ## Reframing lemmas -/

/-- `split` always returns at least one element. -/
theorem splitNl_ne_nil (l : List Char) : splitNl l ≠ [] := by
  cases l with
  | nil => simp [splitNl]
  | cons c cs =>
    simp only [splitNl]
    rcases h : splitNl cs with _ | ⟨s, ss⟩
    · simp
    · by_cases hc : c = '\n' <;> simp [hc]

/-- `frame` computes the complete lines and the retained buffer of the
source's `split` / `pop` pair. -/
theorem frame_eq (l : List Char) :
    frame l = ((splitNl l).dropLast, (splitNl l).getLastD []) := by
  induction l with
  | nil => simp [frame, splitNl]
  | cons c cs ih =>
    rcases h : splitNl cs with _ | ⟨s, ss⟩
    · exact absurd h (splitNl_ne_nil cs)
    · by_cases hc : c = '\n'
      · subst hc
        cases ss with
        | nil => simp [frame, splitNl, h, ih]
        | cons t ts =>
          simp [frame, splitNl, h, ih, List.dropLast_cons₂, List.getLastD_cons]
      · cases ss with
        | nil => simp [frame, splitNl, h, ih, hc]
        | cons t ts =>
          simp [frame, splitNl, h, ih, hc, List.dropLast_cons₂,
            List.getLastD_cons]


/-- Unfolding of `frame` on a newline character. -/
theorem frame_cons_nl (cs : List Char) :
    frame ('\n' :: cs) = ([] :: (frame cs).1, (frame cs).2) := by
  simp [frame]

/-- Unfolding of `frame` on a non-newline character. -/
theorem frame_cons_ne (c : Char) (cs : List Char) (hc : c ≠ '\n') :
    frame (c :: cs) =
      match (frame cs).1 with
      | [] => ([], c :: (frame cs).2)
      | l :: ls => ((c :: l) :: ls, (frame cs).2) := by
  simp [frame, hc]

/-- `frame` composes under concatenation: framing `a ++ b` is framing
`a`, then framing the retained partial line followed by `b`. -/
theorem frame_append (a b : List Char) :
    frame (a ++ b) =
      ((frame a).1 ++ (frame ((frame a).2 ++ b)).1,
        (frame ((frame a).2 ++ b)).2) := by
  induction a with
  | nil => simp [frame]
  | cons c cs ih =>
    by_cases hc : c = '\n'
    · subst hc
      simp [frame_cons_nl, List.cons_append, ih]
    · rw [List.cons_append, frame_cons_ne c (cs ++ b) hc, ih,
        frame_cons_ne c cs hc]
      rcases h : (frame cs).1 with _ | ⟨l, ls⟩
      · simp only [List.nil_append, List.cons_append]
        rw [frame_cons_ne c ((frame cs).2 ++ b) hc]
      · simp

/-- The retained partial line never contains a newline. -/
theorem frame_no_nl (l : List Char) : '\n' ∉ (frame l).2 := by
  induction l with
  | nil => simp [frame]
  | cons c cs ih =>
    by_cases hc : c = '\n'
    · subst hc
      simp [frame_cons_nl, ih]
    · rw [frame_cons_ne c cs hc]
      rcases h : (frame cs).1 with _ | ⟨m, ms⟩
      · simp only []
        intro hmem
        rcases List.mem_cons.mp hmem with h1 | h2
        · exact hc h1.symm
        · exact ih h2
      · simpa using ih

/-- Data without a newline frames to no complete line and itself as
the retained buffer. -/
theorem frame_of_no_nl (l : List Char) (h : '\n' ∉ l) :
    frame l = ([], l) := by
  induction l with
  | nil => simp [frame]
  | cons c cs ih =>
    have hc : c ≠ '\n' := fun hcc => h (hcc ▸ List.mem_cons_self c cs)
    have hcs : '\n' ∉ cs := fun hm => h (List.mem_cons_of_mem c hm)
    rw [frame_cons_ne c cs hc, ih hcs]

/-! ## Basic properties of the server.js decoding loop -/

namespace RemoteOllamaService

/-- Once resolved, a line is a no-op (the loop has returned). -/
theorem lineStep_resolved (parse : Parse) (conn : Bool) (st : PState)
    (l : List Char) (h : st.resolved.isSome) :
    lineStep parse conn st l = st := by
  simp [lineStep, h]

/-- Once resolved, any list of lines is a no-op. -/
theorem procLines_resolved (parse : Parse) (conn : Bool) (st : PState)
    (ls : List (List Char)) (h : st.resolved.isSome) :
    procLines parse conn st ls = st := by
  induction ls with
  | nil => rfl
  | cons l ls ih =>
    simp only [procLines, List.foldl_cons]
    rw [lineStep_resolved parse conn st l h]
    exact ih

/-- Splitting a list of lines across two inner loops. -/
theorem procLines_append (parse : Parse) (conn : Bool) (st : PState)
    (l1 l2 : List (List Char)) :
    procLines parse conn st (l1 ++ l2) =
      procLines parse conn (procLines parse conn st l1) l2 :=
  List.foldl_append _ _ _ _

/-- `chunkStep` on an unresolved state, phrased with `frame`. -/
theorem chunkStep_eq (parse : Parse) (conn : Bool) (st : DState)
    (chunk : List Char) (h : st.toPState.resolved = none) :
    chunkStep parse conn st chunk =
      ⟨procLines parse conn st.toPState (frame (st.buf ++ chunk)).1,
        (frame (st.buf ++ chunk)).2⟩ := by
  simp [chunkStep, h, frame_eq]

/-- The chunk loop, projected away from the buffer, processes exactly
the complete lines of the concatenated stream: the carry-over buffer
makes the processing independent of where the chunk boundaries fall. -/
theorem foldl_chunkStep_toPState (parse : Parse) (conn : Bool) :
    ∀ (cs : List (List Char)) (st : DState), '\n' ∉ st.buf →
      (cs.foldl (chunkStep parse conn) st).toPState =
        procLines parse conn st.toPState (frame (st.buf ++ cs.flatten)).1 := by
  intro cs
  induction cs with
  | nil =>
    intro st hbuf
    simp [frame_of_no_nl st.buf hbuf, procLines]
  | cons c cs ih =>
    intro st hbuf
    rcases hres : st.toPState.resolved with _ | v
    · have hstep := chunkStep_eq parse conn st c hres
      simp only [List.foldl_cons, hstep]
      rw [ih _ (frame_no_nl (st.buf ++ c))]
      simp only []
      rw [← procLines_append]
      have hfa := frame_append (st.buf ++ c) cs.flatten
      rw [show st.buf ++ (c :: cs).flatten = (st.buf ++ c) ++ cs.flatten by
        simp [List.flatten_cons]]
      rw [hfa]
    · have hsome : st.toPState.resolved.isSome := by simp [hres]
      have hstep : chunkStep parse conn st c = st := by
        simp [chunkStep, hsome]
      simp only [List.foldl_cons, hstep]
      rw [ih st hbuf]
      rw [procLines_resolved parse conn _ _ hsome,
        procLines_resolved parse conn _ _ hsome]

/-- A property preserved by every line step holds after the inner loop. -/
theorem procLines_pres (parse : Parse) (conn : Bool)
    (P : PState → Prop)
    (hstep : ∀ st l, P st → P (lineStep parse conn st l)) :
    ∀ (ls : List (List Char)) (st : PState), P st →
      P (procLines parse conn st ls) := by
  intro ls
  induction ls with
  | nil => intro st h; exact h
  | cons l ls ih =>
    intro st h
    exact ih _ (hstep st l h)

/-- A property of the projected state preserved by every line step and
holding initially holds after the whole decoding run. -/
theorem decodeRun_pres (parse : Parse) (conn : Bool)
    (P : PState → Prop)
    (hstep : ∀ st l, P st → P (lineStep parse conn st l))
    (hinit : P ⟨[], [], none⟩) (chunks : List (List Char)) :
    P (decodeRun parse conn chunks).toPState := by
  have h := foldl_chunkStep_toPState parse conn chunks ⟨⟨[], [], none⟩, []⟩
    (by simp)
  rw [decodeRun, h]
  exact procLines_pres parse conn P hstep _ _ hinit

/-- Every line step preserves the `complete`-notification invariant. -/
theorem lineStep_NInv (parse : Parse) (conn : Bool) (st : PState)
    (l : List Char) (h : NInv conn st) :
    NInv conn (lineStep parse conn st l) := by
  by_cases hres : st.resolved.isSome
  · rw [lineStep_resolved parse conn st l hres]; exact h
  · have hres0 : st.resolved = none := Option.not_isSome_iff_eq_none.mp hres
    obtain ⟨h1, h2⟩ := h
    have h20 : completes st.notifs = 0 := by
      simpa [hres0] using h2
    have hall : ∀ n ∈ st.notifs, n.completeFlag = false := by
      intro n hn
      have := List.countP_eq_zero.mp h20 n hn
      simpa using this
    by_cases htrim : jsTrim l = []
    · simp only [lineStep, hres0, htrim]
      simp
      exact ⟨h1, h2⟩
    · rcases hp : parse l with _ | ⟨resp, done⟩
      · simp only [lineStep, hres0, htrim, hp]
        simp
        exact ⟨h1, h2⟩
      · rcases resp with _ | r
        · cases done with
          | false =>
            simp only [lineStep, hres0, htrim, hp]
            simp
            exact ⟨h1, h2⟩
          | true =>
            simp only [lineStep, hres0, htrim, hp]
            simp only [Option.isSome_none, Bool.false_eq_true, if_false,
              htrim, if_neg]
            cases conn with
            | false =>
              constructor
              · simpa [emitIf] using h1
              · simp [emitIf, h20]
            | true =>
              constructor
              · intro n hn
                simp [emitIf] at hn
                exact hall n hn
              · simp [completes, emitIf, List.countP_append]
                simpa [completes] using h20
        · by_cases hr : r = []
          · subst hr
            cases done with
            | false =>
              simp only [lineStep, hres0, htrim, hp]
              simp
              exact ⟨h1, h2⟩
            | true =>
              simp only [lineStep, hres0, htrim, hp]
              simp
              cases conn with
              | false =>
                constructor
                · simpa [emitIf] using h1
                · simpa [emitIf] using h20
              | true =>
                constructor
                · intro n hn
                  simp [emitIf] at hn
                  exact hall n hn
                · simp [completes, emitIf, List.countP_append]
                  simpa [completes] using h20
          · cases done with
            | false =>
              simp only [lineStep, hres0, htrim, hp]
              simp [hr]
              constructor
              · intro n hn
                cases conn with
                | false =>
                  simp [emitIf] at hn
                  exact hall n (List.dropLast_subset _ hn)
                | true =>
                  simp [emitIf] at hn
                  exact hall n hn
              · cases conn with
                | false =>
                  simpa [completes, emitIf, List.countP_append] using h20
                | true =>
                  simp [completes, emitIf, List.countP_append]
                  simpa [completes] using h20
            | true =>
              simp only [lineStep, hres0, htrim, hp]
              simp [hr]
              cases conn with
              | false =>
                constructor
                · simpa [emitIf] using h1
                · simpa [emitIf] using h20
              | true =>
                constructor
                · intro n hn
                  simp [emitIf] at hn
                  rcases hn with hmem | hmem
                  · exact hall n hmem
                  · subst hmem
                    rfl
                · simp [completes, emitIf, List.countP_append]
                  simpa [completes] using h20

/-- The `complete`-notification invariant holds after any decoding run. -/
theorem decodeRun_NInv (parse : Parse) (conn : Bool)
    (chunks : List (List Char)) :
    NInv conn (decodeRun parse conn chunks).toPState :=
  decodeRun_pres parse conn (NInv conn)
    (fun st l h => lineStep_NInv parse conn st l h)
    (by constructor <;> simp [completes]) chunks

/-- `growsTo` is reflexive. -/
theorem growsTo_refl (a : List Char) : growsTo a a := ⟨[], by simp⟩

/-- A text that reaches `b` also reaches any extension of `b`. -/
theorem growsTo_extend (a b t : List Char) (h : growsTo a b) :
    growsTo a (b ++ t) := by
  obtain ⟨u, hu⟩ := h
  exact ⟨u ++ t, by simp [hu]⟩

/-- Every line step preserves the cumulative-text invariant. -/
theorem lineStep_MInv (parse : Parse) (conn : Bool) (st : PState)
    (l : List Char) (h : MInv st) :
    MInv (lineStep parse conn st l) := by
  by_cases hres : st.resolved.isSome
  · rw [lineStep_resolved parse conn st l hres]; exact h
  · have hres0 : st.resolved = none := Option.not_isSome_iff_eq_none.mp hres
    obtain ⟨h1, h2⟩ := h
    by_cases htrim : jsTrim l = []
    · simp only [lineStep, hres0, htrim]
      simp
      exact ⟨h1, h2⟩
    · rcases hp : parse l with _ | ⟨resp, done⟩
      · simp only [lineStep, hres0, htrim, hp]
        simp
        exact ⟨h1, h2⟩
      · rcases resp with _ | r
        · cases done with
          | false =>
            simp only [lineStep, hres0, htrim, hp]
            simp
            exact ⟨h1, h2⟩
          | true =>
            simp only [lineStep, hres0, htrim, hp]
            simp
            cases conn with
            | false =>
              constructor
              · simpa [emitIf] using h1
              · simpa [emitIf] using h2
            | true =>
              constructor
              · simp [emitIf, List.pairwise_append, h1]
                intro a ha
                exact h2 a ha
              · intro n hn
                simp [emitIf] at hn
                rcases hn with hmem | hmem
                · exact h2 n hmem
                · subst hmem
                  exact growsTo_refl _
        · by_cases hr : r = []
          · subst hr
            cases done with
            | false =>
              simp only [lineStep, hres0, htrim, hp]
              simp
              exact ⟨h1, h2⟩
            | true =>
              simp only [lineStep, hres0, htrim, hp]
              simp
              cases conn with
              | false =>
                constructor
                · simpa [emitIf] using h1
                · simpa [emitIf] using h2
              | true =>
                constructor
                · simp [emitIf, List.pairwise_append, h1]
                  intro a ha
                  exact h2 a ha
                · intro n hn
                  simp [emitIf] at hn
                  rcases hn with hmem | hmem
                  · exact h2 n hmem
                  · subst hmem
                    exact growsTo_refl _
          · cases done with
            | false =>
              simp only [lineStep, hres0, htrim, hp]
              simp [hr]
              cases conn with
              | false =>
                constructor
                · simpa [emitIf] using h1
                · intro n hn
                  simp [emitIf] at hn
                  exact growsTo_extend _ _ r (h2 n hn)
              | true =>
                constructor
                · simp [emitIf, List.pairwise_append, h1]
                  intro a ha
                  exact growsTo_extend _ _ r (h2 a ha)
                · intro n hn
                  simp [emitIf] at hn
                  rcases hn with hmem | hmem
                  · exact growsTo_extend _ _ r (h2 n hmem)
                  · subst hmem
                    exact growsTo_refl _
            | true =>
              simp only [lineStep, hres0, htrim, hp]
              simp [hr]
              cases conn with
              | false =>
                constructor
                · simpa [emitIf] using h1
                · intro n hn
                  simp [emitIf] at hn
                  exact growsTo_extend _ _ r (h2 n hn)
              | true =>
                constructor
                · simp [emitIf, List.pairwise_append, h1]
                  refine ⟨growsTo_refl _, ?_⟩
                  intro a ha
                  exact growsTo_extend _ _ r (h2 a ha)
                · intro n hn
                  simp [emitIf] at hn
                  show growsTo n.text (st.full ++ r)
                  rcases hn with hmem | hmem | hmem
                  · exact growsTo_extend _ _ r (h2 n hmem)
                  · subst hmem
                    exact growsTo_refl _
                  · subst hmem
                    exact growsTo_refl _

/-- The cumulative-text invariant holds after any decoding run. -/
theorem decodeRun_MInv (parse : Parse) (conn : Bool)
    (chunks : List (List Char)) :
    MInv (decodeRun parse conn chunks).toPState :=
  decodeRun_pres parse conn MInv
    (fun st l h => lineStep_MInv parse conn st l h)
    (by constructor <;> simp) chunks

end RemoteOllamaService


/-- `completes` distributes over append. -/
theorem completes_append (l1 l2 : List Notification) :
    completes (l1 ++ l2) = completes l1 + completes l2 :=
  List.countP_append ..

namespace MedicalOllamaService

/-- After the sentinel `return`, a line is a no-op. -/
theorem lineStep_returned (sp : SseParse) (st : P0State) (line : List Char)
    (h : st.returned.isSome) : lineStep sp st line = st := by
  simp [lineStep, h]

/-- `p0notifs` distributes over append. -/
theorem p0notifs_append (e1 e2 : List P0Event) :
    p0notifs (e1 ++ e2) = p0notifs e1 ++ p0notifs e2 := by
  simp [p0notifs, List.filterMap_append]

/-- `p0notifs` of a single notification event. -/
theorem p0notifs_notif (n : Notification) :
    p0notifs [P0Event.notif n] = [n] := rfl

/-- Every line step of the part_000 loop preserves its
`complete`-notification invariant. -/
theorem lineStep_p0NInv (sp : SseParse) (st : P0State) (line : List Char)
    (h : p0NInv st) : p0NInv (lineStep sp st line) := by
  by_cases hret : st.returned.isSome
  · rw [lineStep_returned sp st line hret]; exact h
  · have hret0 : st.returned = none := Option.not_isSome_iff_eq_none.mp hret
    obtain ⟨h1, h2⟩ := h
    have h20 : completes (p0notifs st.events) = 0 := by
      simpa [hret0] using h2
    have hall : ∀ n ∈ p0notifs st.events, n.completeFlag = false := by
      intro n hn
      have := List.countP_eq_zero.mp h20 n hn
      simpa using this
    by_cases hd : line = sseDone
    · simp only [lineStep, hret0, hd]
      simp
      constructor
      · intro n hn
        rw [p0notifs_append, p0notifs_notif] at hn
        rw [show (p0notifs st.events ++
            [(⟨st.full, false, true, false⟩ : Notification)]).dropLast =
          p0notifs st.events by simp] at hn
        exact hall n hn
      · rw [p0notifs_append, p0notifs_notif, completes_append, h20]
        simp [completes]
    · by_cases hpre : line.take 6 = ssePre
      · rcases hsp : sp (line.drop 6) with _ | co
        · simp only [lineStep, hret0, hd, hpre, hsp]
          simp [hd]
          exact ⟨h1, h2⟩
        · rcases co with _ | c
          · simp only [lineStep, hret0, hd, hpre, hsp]
            simp [hd]
            exact ⟨h1, h2⟩
          · by_cases hc : c = []
            · subst hc
              simp only [lineStep, hret0, hd, hpre, hsp]
              simp [hd]
              exact ⟨h1, h2⟩
            · simp only [lineStep, hret0, hd, hpre, hsp]
              simp [hd, hc]
              constructor
              · intro n hn
                rw [p0notifs_append, p0notifs_notif] at hn
                rw [show (p0notifs st.events ++
                    [(⟨st.full ++ c, true, false, false⟩ : Notification)]).dropLast =
                  p0notifs st.events by simp] at hn
                exact hall n hn
              · rw [p0notifs_append, p0notifs_notif, completes_append, h20]
                simp [completes, hret0]
      · simp only [lineStep, hret0, hd, hpre]
        simp [hd, hpre]
        exact ⟨h1, h2⟩

/-- A property preserved by every part_000 line step holds after any
sequence of chunks. -/
theorem p0_foldl_pres (sp : SseParse) (P : P0State → Prop)
    (hstep : ∀ st line, P st → P (lineStep sp st line)) :
    ∀ (cs : List (List Char)) (st : P0State), P st →
      P (cs.foldl (chunkStep sp) st) := by
  have hlines : ∀ (ls : List (List Char)) (st : P0State), P st →
      P (ls.foldl (lineStep sp) st) := by
    intro ls
    induction ls with
    | nil => intro st h; exact h
    | cons l ls ih => intro st h; exact ih _ (hstep st l h)
  intro cs
  induction cs with
  | nil => intro st h; exact h
  | cons c cs ih =>
    intro st h
    have hchunk : P (chunkStep sp st c) := by
      unfold chunkStep
      split
      · exact h
      · exact hlines _ st h
    exact ih _ hchunk

/-- The `complete`-notification invariant holds after any part_000 run
over body chunks. -/
theorem p0run_p0NInv (sp : SseParse) (chunks : List (List Char)) :
    p0NInv (chunks.foldl (chunkStep sp) ⟨[], [], none⟩) :=
  p0_foldl_pres sp p0NInv (fun st line h => lineStep_p0NInv sp st line h)
    chunks ⟨[], [], none⟩ (by constructor <;> simp [p0notifs, completes])

end MedicalOllamaService

/-! ## Claim theorems -/

/-- Claim C10: after every call to `addToHistory` on a history within the
bound, the history has at most `MAX_HISTORY_SIZE` entries (1000 in the
first variant, 500 in the second), and the retained entries are exactly
the most recently inserted ones in insertion order (the suffix of the
insertion sequence); the bound is an invariant preserved by every
append. -/
theorem c10_history_bound {α : Type} :
    (∀ (hist : List α) (e : α),
      hist.length ≤ HistoryA.MAX_HISTORY_SIZE →
        (HistoryA.addToHistory hist e).length ≤ HistoryA.MAX_HISTORY_SIZE ∧
        HistoryA.addToHistory hist e =
          (hist ++ [e]).drop
            ((hist ++ [e]).length - HistoryA.MAX_HISTORY_SIZE)) ∧
    (∀ (hist : List α) (e : α),
      hist.length ≤ HistoryB.MAX_HISTORY_SIZE →
        (HistoryB.addToHistory hist e).length ≤ HistoryB.MAX_HISTORY_SIZE ∧
        HistoryB.addToHistory hist e =
          (hist ++ [e]).drop
            ((hist ++ [e]).length - HistoryB.MAX_HISTORY_SIZE)) := by
  constructor
  · intro hist e hlen
    have hdef : HistoryA.addToHistory hist e =
        if 1000 < (hist ++ [e]).length then
          (hist ++ [e]).drop ((hist ++ [e]).length - 1000)
        else hist ++ [e] := rfl
    have hmax : HistoryA.MAX_HISTORY_SIZE = 1000 := rfl
    rw [hdef, hmax]
    rw [hmax] at hlen
    by_cases hc : 1000 < (hist ++ [e]).length
    · refine ⟨?_, ?_⟩
      · simp only [if_pos hc, List.length_drop]
        omega
      · simp only [if_pos hc]
    · have h0 : (hist ++ [e]).length - 1000 = 0 := by omega
      refine ⟨?_, ?_⟩
      · simp only [if_neg hc]
        omega
      · simp only [if_neg hc, h0, List.drop_zero]
  · intro hist e hlen
    have hdef : HistoryB.addToHistory hist e =
        if 500 < (hist ++ [e]).length then (hist ++ [e]).drop 1
        else hist ++ [e] := rfl
    have hmax : HistoryB.MAX_HISTORY_SIZE = 500 := rfl
    rw [hdef, hmax]
    rw [hmax] at hlen
    have hln : (hist ++ [e]).length = hist.length + 1 := by simp
    by_cases hc : 500 < (hist ++ [e]).length
    · have h1 : (hist ++ [e]).length - 500 = 1 := by omega
      refine ⟨?_, ?_⟩
      · simp only [if_pos hc, List.length_drop]
        omega
      · simp only [if_pos hc, h1]
    · have h0 : (hist ++ [e]).length - 500 = 0 := by omega
      refine ⟨?_, ?_⟩
      · simp only [if_neg hc]
        omega
      · simp only [if_neg hc, h0, List.drop_zero]

/-- Witness for C10 at a concrete history and entry. -/
theorem c10_history_bound_witness :
    ((HistoryA.addToHistory [1, 2] 3).length ≤ HistoryA.MAX_HISTORY_SIZE ∧
      HistoryA.addToHistory [1, 2] 3 =
        (([1, 2] : List Nat) ++ [3]).drop
          ((([1, 2] : List Nat) ++ [3]).length - HistoryA.MAX_HISTORY_SIZE)) ∧
    ((HistoryB.addToHistory [1, 2] 3).length ≤ HistoryB.MAX_HISTORY_SIZE ∧
      HistoryB.addToHistory [1, 2] 3 =
        (([1, 2] : List Nat) ++ [3]).drop
          ((([1, 2] : List Nat) ++ [3]).length - HistoryB.MAX_HISTORY_SIZE)) :=
  ⟨(@c10_history_bound Nat).1 [1, 2] 3 (by decide),
   (@c10_history_bound Nat).2 [1, 2] 3 (by decide)⟩

/-- Claim C8: every `send_message` whose message is absent, empty,
whitespace-only, or longer than the configured maximum of 2000
characters is answered with an `error` event and never reaches the relay
(`generateResponse` is not invoked, hence no upstream call is made). -/
theorem c8_validation (rateOk : Bool) (msg : Option (List Char))
    (h : msg = none ∨
      ∃ m, msg = some m ∧ (jsTrim m = [] ∨ 2000 < m.length)) :
    (handleSendMessage rateOk msg).errorEmitted = true ∧
    (handleSendMessage rateOk msg).relayInvoked = false := by
  rcases h with h | ⟨m, hm, hcase⟩
  · subst h
    cases rateOk <;> simp [handleSendMessage]
  · subst hm
    cases rateOk
    · simp [handleSendMessage]
    · by_cases h0 : m = []
      · simp [handleSendMessage, h0]
      · by_cases h1 : (jsTrim m).length = 0
        · simp [handleSendMessage, h0, h1]
        · have h2 : 2000 < m.length := by
            rcases hcase with hc | hc
            · exact absurd (by rw [hc]; rfl) h1
            · exact hc
          simp [handleSendMessage, h0, h1, h2]

/-- Witness for C8 at a concrete oversize message (2001 characters). -/
theorem c8_validation_witness :
    (handleSendMessage true
        (some (List.replicate 2001 'a'))).errorEmitted = true ∧
    (handleSendMessage true
        (some (List.replicate 2001 'a'))).relayInvoked = false :=
  c8_validation true (some (List.replicate 2001 'a'))
    (Or.inr ⟨List.replicate 2001 'a', rfl,
      Or.inr (by rw [List.length_replicate]; omega)⟩)

/-- Claim C5 (amended): for the buffered decoder of
`RemoteOllamaService` (server.js), feeding the same byte stream split at
different chunk boundaries yields the same final state — accumulated
text, notifications and resolution alike.  (The `MedicalOllamaService`
variant of part_000 keeps no carry-over buffer and is *not* re-framing
invariant, see the counterexample.) -/
theorem c5_reframing_invariance (parse : Parse) (conn : Bool)
    (cs1 cs2 : List (List Char)) (h : cs1.flatten = cs2.flatten) :
    (RemoteOllamaService.decodeRun parse conn cs1).toPState =
      (RemoteOllamaService.decodeRun parse conn cs2).toPState := by
  have e1 := RemoteOllamaService.foldl_chunkStep_toPState parse conn cs1
    ⟨⟨[], [], none⟩, []⟩ (by simp)
  have e2 := RemoteOllamaService.foldl_chunkStep_toPState parse conn cs2
    ⟨⟨[], [], none⟩, []⟩ (by simp)
  rw [RemoteOllamaService.decodeRun, e1, RemoteOllamaService.decodeRun, e2]
  simp only [List.nil_append]
  rw [h]

/-- Witness for C5: Scenario A delivered as one chunk versus split after
the tenth character decodes to the same state. -/
theorem c5_reframing_invariance_witness :
    ([chunkA] : List (List Char)).flatten =
      ([chunkA.take 10, chunkA.drop 10] : List (List Char)).flatten ∧
    (RemoteOllamaService.decodeRun jparse3 true [chunkA]).toPState =
      (RemoteOllamaService.decodeRun jparse3 true
        [chunkA.take 10, chunkA.drop 10]).toPState :=
  ⟨by simp, c5_reframing_invariance jparse3 true _ _ (by simp)⟩

/-- Counterexample for C5 as stated: the part_000 decoding loop is not
invariant under re-chunking.  The same SSE byte stream
`data: {"choices":[{"delta":{"content":"AB"}}]}\n`, fed whole, produces
the accumulated text `"AB"`, but split in the middle of the JSON payload
it produces the empty accumulated text, because the truncated prefix is
processed immediately as a complete line (its `JSON.parse` fails and the
fragment is discarded) and the remainder lacks the `data: ` prefix. -/
theorem c5_cex :
    ([sseLineAB ++ ['\n']] : List (List Char)).flatten =
      ([sseLineAB.take 20, sseLineAB.drop 20 ++ ['\n']] :
        List (List Char)).flatten ∧
    (MedicalOllamaService.generateResponse spAB
        (.body [sseLineAB ++ ['\n']] false)).result =
      .ok "AB".data ∧
    (MedicalOllamaService.generateResponse spAB
        (.body [sseLineAB.take 20, sseLineAB.drop 20 ++ ['\n']] false)).result =
      .ok [] := by
  refine ⟨?_, by decide, by decide⟩
  simp [← List.append_assoc, List.take_append_drop]

/-- At most one notification comes out of a conditional emit. -/
theorem completes_emitIf_le (conn : Bool) (n : Notification) :
    completes (RemoteOllamaService.emitIf conn n) ≤ 1 := by
  cases conn with
  | false => simp [RemoteOllamaService.emitIf, completes]
  | true =>
    simp only [RemoteOllamaService.emitIf, completes, List.countP_cons,
      List.countP_nil, if_true]
    split <;> omega

/-- Everything before the last element of `A ++ emitIf conn c` is
in `A`. -/
theorem dropLast_append_emitIf (A : List Notification) (conn : Bool)
    (c : Notification) :
    ∀ n ∈ (A ++ RemoteOllamaService.emitIf conn c).dropLast, n ∈ A := by
  cases conn with
  | false =>
    intro n hn
    simp [RemoteOllamaService.emitIf] at hn
    exact List.dropLast_subset _ hn
  | true =>
    intro n hn
    simpa [RemoteOllamaService.emitIf] using hn

/-- Claim C4: in both relay variants, for any sequence of notifications
emitted for a single turn, at most one carries `complete=true`, and
every notification other than the final one is not a `complete` — so
once `complete=true` is sent, no further notification follows for that
turn. -/
theorem c4_complete_unique (parse : Parse) (conn : Bool) (fb : List Char)
    (b : RemoteOllamaService.Behavior)
    (sp : MedicalOllamaService.SseParse)
    (pb : MedicalOllamaService.P0Behavior) :
    (completes (RemoteOllamaService.notifsOf
        (RemoteOllamaService.generateResponse parse conn fb b)) ≤ 1 ∧
      ∀ n ∈ (RemoteOllamaService.notifsOf
        (RemoteOllamaService.generateResponse parse conn fb b)).dropLast,
        n.completeFlag = false) ∧
    (completes (MedicalOllamaService.p0notifs
        (MedicalOllamaService.generateResponse sp pb).events) ≤ 1 ∧
      ∀ n ∈ (MedicalOllamaService.p0notifs
        (MedicalOllamaService.generateResponse sp pb).events).dropLast,
        n.completeFlag = false) := by
  constructor
  · cases b with
    | testFail =>
      constructor
      · exact completes_emitIf_le conn _
      · intro n hn
        cases conn <;>
          simp [RemoteOllamaService.generateResponse,
            RemoteOllamaService.notifsOf, RemoteOllamaService.emitIf] at hn
    | genFail =>
      constructor
      · exact completes_emitIf_le conn _
      · intro n hn
        cases conn <;>
          simp [RemoteOllamaService.generateResponse,
            RemoteOllamaService.notifsOf, RemoteOllamaService.emitIf] at hn
    | genStall =>
      constructor
      · exact completes_emitIf_le conn _
      · intro n hn
        cases conn <;>
          simp [RemoteOllamaService.generateResponse,
            RemoteOllamaService.notifsOf, RemoteOllamaService.emitIf] at hn
    | body chunks t =>
      obtain ⟨h1, h2⟩ := RemoteOllamaService.decodeRun_NInv parse conn chunks
      have hall0 : (RemoteOllamaService.decodeRun parse conn
            chunks).toPState.resolved = none →
          ∀ n ∈ (RemoteOllamaService.decodeRun parse conn
            chunks).toPState.notifs, n.completeFlag = false := by
        intro hres n hn
        have h20 : completes (RemoteOllamaService.decodeRun parse conn
            chunks).toPState.notifs = 0 := by
          simpa [hres] using h2
        have := List.countP_eq_zero.mp h20 n hn
        simpa using this
      rcases hres : (RemoteOllamaService.decodeRun parse conn
          chunks).toPState.resolved with _ | v
      · have h20 : completes (RemoteOllamaService.decodeRun parse conn
            chunks).toPState.notifs = 0 := by
          simpa [hres] using h2
        cases t with
        | eof =>
          simp only [RemoteOllamaService.generateResponse,
            RemoteOllamaService.notifsOf, hres]
          constructor
          · rw [h20]
            omega
          · intro n hn
            exact hall0 hres n (List.dropLast_subset _ hn)
        | err =>
          simp only [RemoteOllamaService.generateResponse,
            RemoteOllamaService.notifsOf, hres]
          constructor
          · rw [completes_append, h20]
            have := completes_emitIf_le conn
              (RemoteOllamaService.fallbackNotif fb)
            omega
          · intro n hn
            exact hall0 hres n (dropLast_append_emitIf _ conn _ n hn)
        | stall =>
          simp [RemoteOllamaService.generateResponse,
            RemoteOllamaService.notifsOf, hres, completes]
      · simp only [RemoteOllamaService.generateResponse,
          RemoteOllamaService.notifsOf, hres]
        constructor
        · rw [show completes (RemoteOllamaService.decodeRun parse conn
              chunks).toPState.notifs =
            (if ((RemoteOllamaService.decodeRun parse conn
                chunks).toPState.resolved.isSome && conn) = true
              then 1 else 0) from h2]
          split <;> omega
        · exact h1
  · cases pb with
    | preFail =>
      simp [MedicalOllamaService.generateResponse,
        MedicalOllamaService.p0notifs, completes]
    | body chunks readErr =>
      obtain ⟨g1, g2⟩ := MedicalOllamaService.p0run_p0NInv sp chunks
      have gall0 : (chunks.foldl (MedicalOllamaService.chunkStep sp)
            ⟨[], [], none⟩).returned = none →
          ∀ n ∈ MedicalOllamaService.p0notifs
            (chunks.foldl (MedicalOllamaService.chunkStep sp)
              ⟨[], [], none⟩).events, n.completeFlag = false := by
        intro hret n hn
        have g20 : completes (MedicalOllamaService.p0notifs
            (chunks.foldl (MedicalOllamaService.chunkStep sp)
              ⟨[], [], none⟩).events) = 0 := by
          simpa [hret] using g2
        have := List.countP_eq_zero.mp g20 n hn
        simpa using this
      rcases hret : (chunks.foldl (MedicalOllamaService.chunkStep sp)
          ⟨[], [], none⟩).returned with _ | v
      · have g20 : completes (MedicalOllamaService.p0notifs
            (chunks.foldl (MedicalOllamaService.chunkStep sp)
              ⟨[], [], none⟩).events) = 0 := by
          simpa [hret] using g2
        cases readErr with
        | false =>
          simp only [MedicalOllamaService.generateResponse, hret,
            Bool.false_eq_true, if_false]
          constructor
          · rw [g20]
            omega
          · intro n hn
            exact gall0 hret n (List.dropLast_subset _ hn)
        | true =>
          simp only [MedicalOllamaService.generateResponse, hret, if_true]
          constructor
          · rw [MedicalOllamaService.p0notifs_append]
            rw [show MedicalOllamaService.p0notifs
                [MedicalOllamaService.P0Event.errorEvt] = [] from rfl]
            rw [List.append_nil, g20]
            omega
          · intro n hn
            rw [MedicalOllamaService.p0notifs_append] at hn
            rw [show MedicalOllamaService.p0notifs
                [MedicalOllamaService.P0Event.errorEvt] = [] from rfl,
              List.append_nil] at hn
            exact gall0 hret n (List.dropLast_subset _ hn)
      · simp only [MedicalOllamaService.generateResponse, hret]
        constructor
        · rw [show completes (MedicalOllamaService.p0notifs
              (chunks.foldl (MedicalOllamaService.chunkStep sp)
                ⟨[], [], none⟩).events) =
            (if (chunks.foldl (MedicalOllamaService.chunkStep sp)
                ⟨[], [], none⟩).returned.isSome = true
              then 1 else 0) from g2]
          split <;> omega
        · exact g1

/-- Claim C1 (amended): with the client connected, a `complete=true`
notification is emitted exactly when the turn ends via an explicit
`done` line or via an upstream failure: every failure path and every
read-error path emits exactly one; a stream that ends without a `done`
signal emits none — the relay then resolves with the accumulated text
without any `complete` notification. -/
theorem c1_amended (parse : Parse) (fb : List Char)
    (chunks : List (List Char)) :
    completes (RemoteOllamaService.notifsOf
      (RemoteOllamaService.generateResponse parse true fb .testFail)) = 1 ∧
    completes (RemoteOllamaService.notifsOf
      (RemoteOllamaService.generateResponse parse true fb .genFail)) = 1 ∧
    completes (RemoteOllamaService.notifsOf
      (RemoteOllamaService.generateResponse parse true fb .genStall)) = 1 ∧
    completes (RemoteOllamaService.notifsOf
      (RemoteOllamaService.generateResponse parse true fb
        (.body chunks .err))) = 1 ∧
    completes (RemoteOllamaService.notifsOf
      (RemoteOllamaService.generateResponse parse true fb
        (.body chunks .eof))) =
      (if (RemoteOllamaService.decodeRun parse true
          chunks).toPState.resolved.isSome then 1 else 0) ∧
    RemoteOllamaService.generateResponse parse true fb (.body chunks .eof) =
      some ⟨[.tags, .generate],
        (RemoteOllamaService.decodeRun parse true chunks).toPState.notifs,
        ((RemoteOllamaService.decodeRun parse true
            chunks).toPState.resolved.getD
          (RemoteOllamaService.decodeRun parse true chunks).toPState.full)⟩ := by
  obtain ⟨h1, h2⟩ := RemoteOllamaService.decodeRun_NInv parse true chunks
  have hfb : completes [RemoteOllamaService.fallbackNotif fb] = 1 := by
    simp [completes, RemoteOllamaService.fallbackNotif, List.countP_cons]
  refine ⟨?_, ?_, ?_, ?_, ?_, ?_⟩
  · simpa [RemoteOllamaService.generateResponse, RemoteOllamaService.notifsOf,
      RemoteOllamaService.emitIf] using hfb
  · simpa [RemoteOllamaService.generateResponse, RemoteOllamaService.notifsOf,
      RemoteOllamaService.emitIf] using hfb
  · simpa [RemoteOllamaService.generateResponse, RemoteOllamaService.notifsOf,
      RemoteOllamaService.emitIf] using hfb
  · rcases hres : (RemoteOllamaService.decodeRun parse true
        chunks).toPState.resolved with _ | v
    · have h20 : completes (RemoteOllamaService.decodeRun parse true
          chunks).toPState.notifs = 0 := by
        simpa [hres] using h2
      simp only [RemoteOllamaService.generateResponse,
        RemoteOllamaService.notifsOf, hres]
      rw [show RemoteOllamaService.emitIf true
          (RemoteOllamaService.fallbackNotif fb) =
          [RemoteOllamaService.fallbackNotif fb] from rfl]
      rw [completes_append, h20, hfb]
    · simp only [RemoteOllamaService.generateResponse,
        RemoteOllamaService.notifsOf, hres]
      simpa [hres] using h2
  · rcases hres : (RemoteOllamaService.decodeRun parse true
        chunks).toPState.resolved with _ | v
    · simp only [RemoteOllamaService.generateResponse,
        RemoteOllamaService.notifsOf, hres]
      simpa [hres] using h2
    · simp only [RemoteOllamaService.generateResponse,
        RemoteOllamaService.notifsOf, hres]
      simpa [hres] using h2
  · rcases hres : (RemoteOllamaService.decodeRun parse true
        chunks).toPState.resolved with _ | v
    · simp [RemoteOllamaService.generateResponse, hres]
    · simp [RemoteOllamaService.generateResponse, hres]

/-- Counterexample for C1 as stated: the upstream sends
`{"response":"Hello"}` and then closes its stream without any `done`
signal; the relay resolves with `"Hello"`, but the only notification
delivered is the partial one — zero `complete=true` notifications are
emitted for this accepted turn, and no complete notification carrying
the accumulated text precedes the resolution. -/
theorem c1_cex :
    RemoteOllamaService.generateResponse jparse3 true
        (RemoteOllamaService.getFallbackResponse 0)
        (.body [lineHello ++ ['\n']] .eof) =
      some ⟨[.tags, .generate],
        [⟨"Hello".data, true, false, false⟩], "Hello".data⟩ ∧
    completes [(⟨"Hello".data, true, false, false⟩ : Notification)] = 0 := by
  exact ⟨by decide, by decide⟩

/-- Claim C2 (amended): for the server.js relay
(`RemoteOllamaService`), every upstream failure — probe failure, generate
fetch failure, timeout during connection, or a read error after any
prefix of the body — resolves the promise with the fallback text and
delivers that same text in a single `complete=true` notification, so no
upstream exception escapes to the caller.  (The part_000
`MedicalOllamaService` variant instead emits an `error` event and
rejects; see the counterexample.) -/
theorem c2_amended (parse : Parse) (fb : List Char)
    (chunks : List (List Char)) :
    RemoteOllamaService.generateResponse parse true fb .testFail =
      some ⟨[.tags], [RemoteOllamaService.fallbackNotif fb], fb⟩ ∧
    RemoteOllamaService.generateResponse parse true fb .genFail =
      some ⟨[.tags, .generate], [RemoteOllamaService.fallbackNotif fb], fb⟩ ∧
    RemoteOllamaService.generateResponse parse true fb .genStall =
      some ⟨[.tags, .generate], [RemoteOllamaService.fallbackNotif fb], fb⟩ ∧
    (RemoteOllamaService.fallbackNotif fb).text = fb ∧
    (RemoteOllamaService.fallbackNotif fb).completeFlag = true ∧
    ((RemoteOllamaService.decodeRun parse true
        chunks).toPState.resolved = none →
      RemoteOllamaService.generateResponse parse true fb
          (.body chunks .err) =
        some ⟨[.tags, .generate],
          (RemoteOllamaService.decodeRun parse true chunks).toPState.notifs ++
            [RemoteOllamaService.fallbackNotif fb], fb⟩ ∧
      completes ((RemoteOllamaService.decodeRun parse true
          chunks).toPState.notifs ++
        [RemoteOllamaService.fallbackNotif fb]) = 1) := by
  obtain ⟨h1, h2⟩ := RemoteOllamaService.decodeRun_NInv parse true chunks
  refine ⟨rfl, rfl, rfl, rfl, rfl, ?_⟩
  intro hres
  have h20 : completes (RemoteOllamaService.decodeRun parse true
      chunks).toPState.notifs = 0 := by
    simpa [hres] using h2
  constructor
  · simp [RemoteOllamaService.generateResponse, hres,
      RemoteOllamaService.emitIf]
  · rw [completes_append, h20]
    simp [completes, RemoteOllamaService.fallbackNotif, List.countP_cons]

/-- Witness for C2 at a concrete failing run: empty body followed by a
read error, with the second configured fallback string. -/
theorem c2_amended_witness :
    (RemoteOllamaService.decodeRun jparse3 true []).toPState.resolved =
      none ∧
    (RemoteOllamaService.generateResponse jparse3 true
        (RemoteOllamaService.getFallbackResponse 1) (.body [] .err) =
      some ⟨[.tags, .generate],
        (RemoteOllamaService.decodeRun jparse3 true []).toPState.notifs ++
          [RemoteOllamaService.fallbackNotif
            (RemoteOllamaService.getFallbackResponse 1)],
        RemoteOllamaService.getFallbackResponse 1⟩ ∧
      completes ((RemoteOllamaService.decodeRun jparse3 true
          []).toPState.notifs ++
        [RemoteOllamaService.fallbackNotif
          (RemoteOllamaService.getFallbackResponse 1)]) = 1) :=
  ⟨by decide,
    (c2_amended jparse3 (RemoteOllamaService.getFallbackResponse 1)
      []).2.2.2.2.2 (by decide)⟩

/-- Counterexample for C2 as stated: for the part_000 variant of the
relay (`MedicalOllamaService.generateResponse`, cited by the claim), an
upstream failure does not resolve the promise with a fallback text — the
`catch` block emits an `error` event and rethrows, so the promise
rejects and no `complete=true` notification carries any fallback. -/
theorem c2_cex :
    MedicalOllamaService.generateResponse spNone .preFail =
      ⟨[.errorEvt], .rejected⟩ ∧
    MedicalOllamaService.p0notifs
      (MedicalOllamaService.generateResponse spNone .preFail).events = [] := by
  exact ⟨rfl, rfl⟩

/-- Claim C3 (amended): the notifications emitted by the decoding loop
itself always carry the cumulative accumulated text — each notification
text is an extension of every earlier one (so lengths are
non-decreasing), and every emitted text is a stage of the accumulated
answer.  (The fallback notification emitted by the failure path carries
the fallback text instead and may be shorter than an earlier partial;
see the counterexample.) -/
theorem c3_amended (parse : Parse) (conn : Bool)
    (chunks : List (List Char)) :
    ((RemoteOllamaService.decodeRun parse conn
        chunks).toPState.notifs).Pairwise
      (fun a b => growsTo a.text b.text) ∧
    ((RemoteOllamaService.decodeRun parse conn
        chunks).toPState.notifs).Pairwise
      (fun a b => a.text.length ≤ b.text.length) ∧
    ∀ n ∈ (RemoteOllamaService.decodeRun parse conn
        chunks).toPState.notifs,
      growsTo n.text
        (RemoteOllamaService.decodeRun parse conn chunks).toPState.full := by
  obtain ⟨h1, h2⟩ := RemoteOllamaService.decodeRun_MInv parse conn chunks
  refine ⟨h1, ?_, h2⟩
  refine h1.imp ?_
  intro a b hab
  obtain ⟨t, ht⟩ := hab
  simp [ht]

set_option maxRecDepth 100000 in
/-- Counterexample for C3 as stated: the upstream streams a
300-character token (one partial notification of length 300), then the
connection errors; the failure path emits its fallback `complete`
notification, whose text is the 192-character fallback string — a later
notification of the same turn that is shorter than its predecessor and
does not carry the accumulated answer. -/
theorem c3_cex :
    (RemoteOllamaService.notifsOf
        (RemoteOllamaService.generateResponse jparseLong true
          (RemoteOllamaService.getFallbackResponse 0)
          (.body [lineLong ++ ['\n']] .err))).map
      (fun n => n.text.length) = [300, 192] ∧
    ¬ (RemoteOllamaService.notifsOf
        (RemoteOllamaService.generateResponse jparseLong true
          (RemoteOllamaService.getFallbackResponse 0)
          (.body [lineLong ++ ['\n']] .err))).Pairwise
      (fun a b => a.text.length ≤ b.text.length) := by
  have hmap : (RemoteOllamaService.notifsOf
      (RemoteOllamaService.generateResponse jparseLong true
        (RemoteOllamaService.getFallbackResponse 0)
        (.body [lineLong ++ ['\n']] .err))).map
      (fun n => n.text.length) = [300, 192] := by decide
  refine ⟨hmap, ?_⟩
  intro h
  have h' : ((RemoteOllamaService.notifsOf
      (RemoteOllamaService.generateResponse jparseLong true
        (RemoteOllamaService.getFallbackResponse 0)
        (.body [lineLong ++ ['\n']] .err))).map
      (fun n => n.text.length)).Pairwise (fun a b => a ≤ b) :=
    List.Pairwise.map _ (fun a b hab => hab) h
  rw [hmap] at h'
  rw [List.pairwise_cons] at h'
  have := h'.1 192 (by simp)
  omega

/-- Claim C6 (amended): the relay settles for every upstream outcome
except a stall while the body is streaming: connection-phase failures,
a connection-phase timeout (the 120 s timer aborts the pending fetch and
is indistinguishable from any other fetch failure — same fallback path),
clean stream ends and read errors all settle; but `clearTimeout` runs as
soon as the headers arrive, before the read loop, so a stall during the
incremental body read is never cancelled: the promise then settles only
if a `done` line had already resolved it. -/
theorem c6_amended (parse : Parse) (fb : List Char)
    (chunks : List (List Char)) :
    (RemoteOllamaService.generateResponse parse true fb .testFail).isSome ∧
    (RemoteOllamaService.generateResponse parse true fb .genFail).isSome ∧
    RemoteOllamaService.generateResponse parse true fb .genStall =
      RemoteOllamaService.generateResponse parse true fb .genFail ∧
    (RemoteOllamaService.generateResponse parse true fb
      (.body chunks .eof)).isSome ∧
    (RemoteOllamaService.generateResponse parse true fb
      (.body chunks .err)).isSome ∧
    (RemoteOllamaService.generateResponse parse true fb
        (.body chunks .stall)).isSome =
      (RemoteOllamaService.decodeRun parse true
        chunks).toPState.resolved.isSome := by
  refine ⟨rfl, rfl, rfl, ?_, ?_, ?_⟩ <;>
    rcases hres : (RemoteOllamaService.decodeRun parse true
      chunks).toPState.resolved with _ | v <;>
    simp [RemoteOllamaService.generateResponse, hres]

/-- Counterexample for C6 as stated: with the headers received and one
undecodable partial chunk delivered, an upstream that stalls forever is
never cancelled — the 120 s timeout was already cleared at
src/server.js:217, before the read loop — so the relay never resolves,
contradicting "never hangs past the configured timeout plus a small
grace margin" and "the hard timeout cancels the in-flight upstream call
including while the response body is still being read". -/
theorem c6_cex :
    RemoteOllamaService.generateResponse jparse3 true
      (RemoteOllamaService.getFallbackResponse 0)
      (.body [['x']] .stall) = none := by
  decide

/-- Claim C9 (amended): every settled invocation of the server.js relay
performs exactly one probe request (`/api/tags`, inside
`testOllamaConnection`) and, when the probe succeeds, exactly one
generation request (`/api/generate`) — two outbound network calls on the
generation path, one when the probe fails, never more and never a
retry. -/
theorem c9_amended (parse : Parse) (fb : List Char)
    (chunks : List (List Char)) :
    RemoteOllamaService.callsOf
      (RemoteOllamaService.generateResponse parse true fb .testFail) =
      [.tags] ∧
    RemoteOllamaService.callsOf
      (RemoteOllamaService.generateResponse parse true fb .genFail) =
      [.tags, .generate] ∧
    RemoteOllamaService.callsOf
      (RemoteOllamaService.generateResponse parse true fb .genStall) =
      [.tags, .generate] ∧
    RemoteOllamaService.callsOf
      (RemoteOllamaService.generateResponse parse true fb
        (.body chunks .eof)) = [.tags, .generate] ∧
    RemoteOllamaService.callsOf
      (RemoteOllamaService.generateResponse parse true fb
        (.body chunks .err)) = [.tags, .generate] ∧
    RemoteOllamaService.callsOf
      (RemoteOllamaService.generateResponse parse true fb
        (.body chunks .stall)) =
      (if (RemoteOllamaService.decodeRun parse true
          chunks).toPState.resolved.isSome then [.tags, .generate]
        else []) := by
  refine ⟨rfl, rfl, rfl, ?_, ?_, ?_⟩ <;>
    rcases hres : (RemoteOllamaService.decodeRun parse true
      chunks).toPState.resolved with _ | v <;>
    simp [RemoteOllamaService.generateResponse,
      RemoteOllamaService.callsOf, hres]

/-- Counterexample for C9 as stated: a successful generation turn (empty
body, clean end) performs two outbound network calls — the
`testOllamaConnection` probe of `/api/tags` followed by the
`/api/generate` fetch — not exactly one. -/
theorem c9_cex :
    RemoteOllamaService.callsOf
      (RemoteOllamaService.generateResponse jparse3 true
        (RemoteOllamaService.getFallbackResponse 0)
        (.body [chunkA] .eof)) = [.tags, .generate] ∧
    (RemoteOllamaService.callsOf
      (RemoteOllamaService.generateResponse jparse3 true
        (RemoteOllamaService.getFallbackResponse 0)
        (.body [chunkA] .eof))).length ≠ 1 := by
  exact ⟨by decide, by decide⟩

/-- Claim C7: when the NDJSON upstream emits exactly
`{"response":"Hello"}`, `{"response":" world","done":false}` and
`{"done":true}` as newline-terminated lines, for any `JSON.parse`
behaviour agreeing with JSON semantics on those three lines, the client
receives exactly partial("Hello"), partial("Hello world"),
complete("Hello world") in that order and the relay resolves with
"Hello world". -/
theorem c7_ndjson_stream (parse : Parse) (fb : List Char)
    (h1 : parse lineHello = some ⟨some "Hello".data, false⟩)
    (h2 : parse lineWorld = some ⟨some " world".data, false⟩)
    (h3 : parse lineDone = some ⟨none, true⟩) :
    RemoteOllamaService.generateResponse parse true fb
        (.body [chunkA] .eof) =
      some ⟨[.tags, .generate],
        [⟨"Hello".data, true, false, false⟩,
          ⟨"Hello world".data, true, false, false⟩,
          ⟨"Hello world".data, false, true, false⟩],
        "Hello world".data⟩ := by
  have ht1 : ¬(jsTrim lineHello = []) := by decide
  have ht2 : ¬(jsTrim lineWorld = []) := by decide
  have ht3 : ¬(jsTrim lineDone = []) := by decide
  have hne1 : ("Hello".data : List Char) ≠ [] := by decide
  have hne2 : (" world".data : List Char) ≠ [] := by decide
  have hcat : "Hello".data ++ " world".data = "Hello world".data := by decide
  have e1 : RemoteOllamaService.lineStep parse true ⟨[], [], none⟩
      lineHello =
      ⟨"Hello".data, [⟨"Hello".data, true, false, false⟩], none⟩ := by
    simp [RemoteOllamaService.lineStep, h1, ht1, hne1,
      RemoteOllamaService.emitIf]
  have e2 : RemoteOllamaService.lineStep parse true
      ⟨"Hello".data, [⟨"Hello".data, true, false, false⟩], none⟩
      lineWorld =
      ⟨"Hello world".data,
        [⟨"Hello".data, true, false, false⟩,
          ⟨"Hello world".data, true, false, false⟩], none⟩ := by
    simp [RemoteOllamaService.lineStep, h2, ht2, hne2,
      RemoteOllamaService.emitIf, hcat]
  have e3 : RemoteOllamaService.lineStep parse true
      ⟨"Hello world".data,
        [⟨"Hello".data, true, false, false⟩,
          ⟨"Hello world".data, true, false, false⟩], none⟩
      lineDone =
      ⟨"Hello world".data,
        [⟨"Hello".data, true, false, false⟩,
          ⟨"Hello world".data, true, false, false⟩,
          ⟨"Hello world".data, false, true, false⟩],
        some "Hello world".data⟩ := by
    simp [RemoteOllamaService.lineStep, h3, ht3,
      RemoteOllamaService.emitIf]
  have hto : (RemoteOllamaService.decodeRun parse true
      [chunkA]).toPState =
      ⟨"Hello world".data,
        [⟨"Hello".data, true, false, false⟩,
          ⟨"Hello world".data, true, false, false⟩,
          ⟨"Hello world".data, false, true, false⟩],
        some "Hello world".data⟩ := by
    have h := RemoteOllamaService.foldl_chunkStep_toPState parse true
      [chunkA] ⟨⟨[], [], none⟩, []⟩ (by simp)
    rw [RemoteOllamaService.decodeRun, h]
    have hframe : (frame ((⟨⟨[], [], none⟩, []⟩ :
        RemoteOllamaService.DState).buf ++
          ([chunkA] : List (List Char)).flatten)).1 =
        [lineHello, lineWorld, lineDone] := by decide
    rw [hframe]
    rw [RemoteOllamaService.procLines, List.foldl_cons, List.foldl_cons,
      List.foldl_cons, List.foldl_nil]
    rw [show (⟨⟨[], [], none⟩, []⟩ :
        RemoteOllamaService.DState).toPState =
      (⟨[], [], none⟩ : RemoteOllamaService.PState) from rfl]
    rw [e1, e2, e3]
  simp only [RemoteOllamaService.generateResponse]
  rw [hto]

/-- Witness for C7: the hypotheses hold for the concrete parse function
`jparse3`, which agrees with JSON semantics on the three lines. -/
theorem c7_ndjson_stream_witness :
    RemoteOllamaService.generateResponse jparse3 true
        (RemoteOllamaService.getFallbackResponse 0)
        (.body [chunkA] .eof) =
      some ⟨[.tags, .generate],
        [⟨"Hello".data, true, false, false⟩,
          ⟨"Hello world".data, true, false, false⟩,
          ⟨"Hello world".data, false, true, false⟩],
        "Hello world".data⟩ :=
  c7_ndjson_stream jparse3 (RemoteOllamaService.getFallbackResponse 0)
    (by decide) (by decide) (by decide)
